import Mathlib

/-!
# Verification of the batch execution engine of grok-imagine-video-mcp-server

A shallow embedding, in Lean 4, of the batch video-generation engine:
`src/utils/batch-manager.ts` (cost estimation, per-job retry loop, batch
finalization, semaphore) and `src/utils/batch-config.ts` (configuration
validation and output-path resolution).

Modelling conventions:
* JavaScript strings are Lean `String`s; the JS string operations used by the
  source (`toLowerCase`, `trim`, `includes`, `startsWith`) are implemented
  over the underlying `List Char` so that they compute by kernel reduction.
* JS truthiness of an optional string (`!!x`, `x || d`) is `truthy` /
  `strOr`: `undefined` and `""` are falsy.  Truthiness of an optional number
  treats `0` as falsy (`numTruthy`, `natOr`).
* JS numbers carrying durations and costs become `ℚ`; millisecond settings
  and counters become `Nat`.
* Node's POSIX path functions (`isAbsolute`, `resolve`, `join`) are modelled
  by `isAbsolutePath`, `pathResolve`, `pathJoin` over `/`-separated segments;
  the ambient working directory is passed explicitly as `cwd`.
* `throw new BatchConfigError(msg)` and async failure become
  `Except String`; an error value is the thrown message.
* Wall-clock time, the poll loop, and the remote API are outside the model:
  the executors `generateVideo` / `editVideo` are oracles
  `attempt ↦ Except String ExecResult`, and which job promises settled
  before batch finalization is an oracle `finished : Nat → Bool`.
-/

deriving instance DecidableEq for Except

/-- JS truthiness of an optional string: `undefined` and `""` are falsy. -/
def truthy : Option String → Bool
  | none => false
  | some s => !s.isEmpty

/-- JS truthiness of an optional rational number: `undefined` and `0` are falsy. -/
def numTruthy : Option ℚ → Bool
  | none => false
  | some q => q != 0

/-- JS `x || d` for an optional string: the default replaces both `undefined` and `""`. -/
def strOr (o : Option String) (d : String) : String :=
  if truthy o then o.getD "" else d

/-- JS `x || d` for an optional counter: the default replaces both `undefined` and `0`. -/
def natOr (o : Option Nat) (d : Nat) : Nat :=
  match o with
  | none => d
  | some n => if n = 0 then d else n

/-- JS `String.prototype.toLowerCase`, character by character. -/
def lowerStr (s : String) : String := ⟨s.data.map Char.toLower⟩

/-- JS `String.prototype.trim`: whitespace stripped from both ends. -/
def jsTrim (s : String) : String :=
  ⟨((s.data.dropWhile Char.isWhitespace).reverse.dropWhile Char.isWhitespace).reverse⟩

/-- JS `haystack.includes(needle)`: substring containment. -/
def containsSub (haystack needle : String) : Bool :=
  decide (needle.data <:+: haystack.data)

/-- JS `s.startsWith(p)`. -/
def strStartsWith (s p : String) : Bool :=
  p.data.isPrefixOf s.data

/-- Split a character list at `/`, accumulating the current segment reversed. -/
def splitSlash : List Char → List Char → List String
  | [], cur => [⟨cur.reverse⟩]
  | c :: rest, cur =>
    if c = '/' then (⟨cur.reverse⟩ : String) :: splitSlash rest []
    else splitSlash rest (c :: cur)

/-- The non-empty `/`-separated segments of a path. -/
def splitPath (s : String) : List String :=
  (splitSlash s.data []).filter (fun seg => !seg.isEmpty)

/-- Resolve `.` and `..` segments the way Node's path normalization does,
keeping `..` segments that cannot be popped (as in a relative path). -/
def normSegs : List String → List String → List String
  | [], acc => acc.reverse
  | s :: rest, acc =>
    if s = "." then normSegs rest acc
    else if s = ".." then
      match acc with
      | [] => normSegs rest [".."]
      | a :: as => if a = ".." then normSegs rest (".." :: a :: as) else normSegs rest as
    else normSegs rest (s :: acc)

/-- Join path segments with `/`. -/
def joinSegs : List String → String
  | [] => ""
  | [s] => s
  | s :: rest => s ++ "/" ++ joinSegs rest

/-- Node `path.isAbsolute` on POSIX: the path starts with `/`. -/
def isAbsolutePath (s : String) : Bool :=
  match s.data with
  | '/' :: _ => true
  | _ => false

/-- Node `path.resolve(p)` on POSIX with explicit working directory `cwd`
(assumed absolute): make `p` absolute and normalize `.`/`..`; `..` at the
root is dropped. -/
def pathResolve (cwd p : String) : String :=
  let full := if isAbsolutePath p then p else cwd ++ "/" ++ p
  "/" ++ joinSegs ((normSegs (splitPath full) []).dropWhile (fun s => s = ".."))

/-- Node `path.join(a, b)` on POSIX: concatenate with `/` and normalize.
`..` at the root of an absolute result is dropped. -/
def pathJoin (a b : String) : String :=
  let segs := normSegs (splitPath (a ++ "/" ++ b)) []
  if isAbsolutePath a then
    "/" ++ joinSegs (segs.dropWhile (fun s => s = ".."))
  else
    joinSegs segs

/-! ## Data model (`src/types/batch.ts`, `src/types/tools.ts`) -/

/-- Constant `MODELS` from `src/types/tools.ts`. -/
def MODELS : List String := ["grok-imagine-video"]

/-- Constant `ASPECT_RATIOS` from `src/types/tools.ts`. -/
def ASPECT_RATIOS : List String := ["16:9", "4:3", "1:1", "9:16", "3:4", "3:2", "2:3"]

/-- Constant `RESOLUTIONS` from `src/types/tools.ts`. -/
def RESOLUTIONS : List String := ["720p", "480p"]

/-- Constant `MIN_DURATION` from `src/types/tools.ts`. -/
def MIN_DURATION : ℚ := 1

/-- Constant `MAX_DURATION` from `src/types/tools.ts`. -/
def MAX_DURATION : ℚ := 15

/-- Constant `DEFAULT_DURATION` from `src/types/tools.ts`. -/
def DEFAULT_DURATION : ℚ := 5

/-- Interface `BatchJobConfig` from `src/types/batch.ts`: one job of a batch. -/
structure BatchJobConfig where
  prompt : String
  output_path : Option String := none
  model : Option String := none
  duration : Option ℚ := none
  aspect_ratio : Option String := none
  resolution : Option String := none
  image_url : Option String := none
  image_path : Option String := none
  video_url : Option String := none
deriving DecidableEq, Repr

/-- Interface `RetryPolicy` from `src/types/batch.ts`. -/
structure RetryPolicy where
  max_retries : Option Nat := none
  retry_delay_ms : Option Nat := none
  retry_on_errors : Option (List String) := none
deriving DecidableEq, Repr

/-- Interface `BatchConfig` from `src/types/batch.ts`. -/
structure BatchConfig where
  jobs : List BatchJobConfig
  output_dir : Option String := none
  max_concurrent : Option Nat := none
  timeout : Option Nat := none
  poll_interval : Option Nat := none
  max_poll_attempts : Option Nat := none
  retry_policy : Option RetryPolicy := none
  default_model : Option String := none
  default_resolution : Option String := none
  default_aspect_ratio : Option String := none
  default_duration : Option ℚ := none
deriving DecidableEq, Repr

/-- The status of a finished batch job (`BatchJobResult.status`). -/
inductive JobStatus where
  | completed
  | failed
  | cancelled
deriving DecidableEq, Repr

/-- Interface `BatchJobResult` from `src/types/batch.ts`; the wall-clock field
`duration_ms` is not modelled. -/
structure BatchJobResult where
  index : Nat
  prompt : String
  status : JobStatus
  output_path : Option String := none
  video_url : Option String := none
  error : Option String := none
  video_duration : Option ℚ := none
  is_edit : Option Bool := none
  is_image_to_video : Option Bool := none
  request_id : Option String := none
deriving DecidableEq, Repr

/-- Interface `BatchResult` from `src/types/batch.ts`; the timestamp and wall-clock
fields are not modelled. -/
structure BatchResult where
  total : Nat
  succeeded : Nat
  failed : Nat
  cancelled : Nat
  results : List BatchJobResult
  estimated_cost : ℚ
deriving DecidableEq, Repr

/-- The three job kinds distinguished by the engine. -/
inductive JobKind where
  | generation
  | image_to_video
  | edit
deriving DecidableEq, Repr

/-- One entry of `CostEstimate.breakdown` from `src/types/batch.ts`. -/
structure BreakdownEntry where
  type : JobKind
  count : Nat
  totalDuration : ℚ
  costMin : ℚ
  costMax : ℚ
deriving DecidableEq, Repr

/-- Interface `CostEstimate` from `src/types/batch.ts`. -/
structure CostEstimate where
  totalJobs : Nat
  totalVideoDuration : ℚ
  estimatedCostMin : ℚ
  estimatedCostMax : ℚ
  breakdown : List BreakdownEntry
deriving DecidableEq, Repr

/-- The shape of a successful result of `generateVideo` / `editVideo` as read
by `executeJob` (`batch-manager.ts` lines 302-316). -/
structure ExecResult where
  url : Option String := none
  duration : Option ℚ := none
  request_id : Option String := none
  output_path : Option String := none
deriving DecidableEq, Repr

/-! ## Configuration validation (`src/utils/batch-config.ts`) -/

/-- Function `validateJobConfig(job, index)` from `batch-config.ts` lines 175-246.
`typeof` checks are subsumed by the Lean types.  Note the source computes
`isImageToVideoJob` from `image_url` only. -/
def validateJobConfig (job : BatchJobConfig) (index : Nat) : Except String Unit := do
  let pre := "Job " ++ toString (index + 1)
  -- `!job.prompt || job.prompt.trim().length === 0`
  if (jsTrim job.prompt).isEmpty then
    throw (pre ++ ": prompt is required and must be a non-empty string")
  match job.model with
  | some m =>
    if !(MODELS.contains m) then
      throw (pre ++ ": Invalid model \"" ++ m ++ "\". Must be one of: grok-imagine-video")
  | none => pure ()
  let isEditJob := truthy job.video_url
  let isImageToVideoJob := truthy job.image_url
  match job.duration with
  | some d =>
    if isEditJob then
      throw (pre ++ ": duration cannot be specified for edit jobs (inherited from source video)")
    if d < MIN_DURATION || MAX_DURATION < d then
      throw (pre ++ ": duration must be between 1 and 15 seconds")
  | none => pure ()
  match job.aspect_ratio with
  | some a =>
    if isEditJob then
      throw (pre ++ ": aspect_ratio cannot be specified for edit jobs")
    if !(ASPECT_RATIOS.contains a) then
      throw (pre ++ ": Invalid aspect_ratio \"" ++ a ++ "\". Must be one of: 16:9, 4:3, 1:1, 9:16, 3:4, 3:2, 2:3")
  | none => pure ()
  match job.resolution with
  | some r =>
    if !(RESOLUTIONS.contains r) then
      throw (pre ++ ": Invalid resolution \"" ++ r ++ "\". Must be one of: 720p, 480p")
  | none => pure ()
  if isEditJob then
    if isImageToVideoJob then
      throw (pre ++ ": Cannot specify both video_url and image_url")

/-- Function `validateRetryPolicy(policy)` from `batch-config.ts` lines 251-282
(the array/string `typeof` checks are subsumed by the Lean types). -/
def validateRetryPolicy (policy : RetryPolicy) : Except String Unit := do
  match policy.max_retries with
  | some n =>
    if n > 5 then
      throw "retry_policy.max_retries must be between 0 and 5"
  | none => pure ()
  match policy.retry_delay_ms with
  | some d =>
    if d < 100 || d > 60000 then
      throw "retry_policy.retry_delay_ms must be between 100 and 60000"
  | none => pure ()

/-- Function `validateBatchConfig(config)` from `batch-config.ts` lines 63-170.
The `Array.isArray` / `typeof` checks are subsumed by the Lean types. -/
def validateBatchConfig (config : BatchConfig) : Except String Unit := do
  if config.jobs.length = 0 then
    throw "Jobs array cannot be empty"
  if config.jobs.length > 100 then
    throw "Maximum 100 jobs allowed per batch"
  let _ ← config.jobs.enum.mapM (fun p => validateJobConfig p.2 p.1)
  match config.max_concurrent with
  | some n =>
    if n < 1 || n > 10 then
      throw "max_concurrent must be a number between 1 and 10"
  | none => pure ()
  match config.timeout with
  | some t =>
    if t < 1000 || t > 3600000 then
      throw "timeout must be between 1000 and 3600000 milliseconds"
  | none => pure ()
  match config.poll_interval with
  | some t =>
    if t < 1000 || t > 60000 then
      throw "poll_interval must be between 1000 and 60000 milliseconds"
  | none => pure ()
  match config.max_poll_attempts with
  | some t =>
    if t < 1 || t > 1000 then
      throw "max_poll_attempts must be between 1 and 1000"
  | none => pure ()
  match config.retry_policy with
  | some p => validateRetryPolicy p
  | none => pure ()
  match config.default_model with
  | some m =>
    if !(MODELS.contains m) then
      throw ("Invalid default_model: " ++ m ++ ". Must be one of: grok-imagine-video")
  | none => pure ()
  match config.default_resolution with
  | some r =>
    if !(RESOLUTIONS.contains r) then
      throw ("Invalid default_resolution: " ++ r ++ ". Must be one of: 720p, 480p")
  | none => pure ()
  match config.default_aspect_ratio with
  | some a =>
    if !(ASPECT_RATIOS.contains a) then
      throw ("Invalid default_aspect_ratio: " ++ a ++ ". Must be one of: 16:9, 4:3, 1:1, 9:16, 3:4, 3:2, 2:3")
  | none => pure ()
  match config.default_duration with
  | some d =>
    if d < MIN_DURATION || MAX_DURATION < d then
      throw "default_duration must be between 1 and 15 seconds"
  | none => pure ()

/-! ## Output-path resolution (`src/utils/batch-config.ts` lines 349-389) -/

/-- Function `resolveOutputPath(job, index, outputDir, allowAnyPath)` from
`batch-config.ts`.  `cwd` is the process working directory `path.resolve`
resolves against.  The security check on an absolute `output_path` is the
source's `resolved.startsWith(allowedDir)`. -/
def resolveOutputPath (cwd : String) (job : BatchJobConfig) (index : Nat)
    (outputDir : String) (allowAnyPath : Bool) : Except String String :=
  if truthy job.output_path then
    let op := job.output_path.getD ""
    if isAbsolutePath op then
      if !allowAnyPath then
        let resolved := pathResolve cwd op
        let allowedDir := pathResolve cwd outputDir
        if !(strStartsWith resolved allowedDir) then
          .error ("Job " ++ toString (index + 1) ++
            ": Output path must be within output directory. Use --allow-any-path to override.")
        else .ok op
      else .ok op
    else
      .ok (pathJoin outputDir op)
  else
    let isEditJob := truthy job.video_url
    let isImageToVideoJob := truthy job.image_url
    let filePre : String :=
      if isEditJob then "edited"
      else if isImageToVideoJob then "animated"
      else "generated"
    .ok (pathJoin outputDir (filePre ++ "_" ++ toString (index + 1) ++ ".mp4"))

/-- Modelled from the spec: "a job-declared absolute path stays within the
configured output directory".  A resolved path is within a directory when it
is the directory itself or lies strictly under it past a `/` separator.
Stated here only to compare the source's `startsWith` check against the
spec's notion of escaping the output directory. -/
def isPathWithin (dir p : String) : Bool :=
  p == dir || strStartsWith p (dir ++ "/")

/-! ## Cost estimation (`src/utils/batch-manager.ts` lines 59-145) -/

/-- The per-kind rates of `VIDEO_COSTS` (`batch-manager.ts` lines 59-63). -/
def VIDEO_COSTS_perSecond : JobKind → ℚ
  | .generation => 5 / 100
  | .image_to_video => 5 / 100
  | .edit => 7 / 100

/-- Bonus `VIDEO_COSTS.image_to_video.imageBonus`. -/
def imageBonus : ℚ := 1 / 100

/-- The classification computed by `estimateBatchCost` for each job
(`batch-manager.ts` lines 88-105): `isEdit = !!job.video_url`,
`isImageToVideo = !!job.image_url || !!job.image_path`, edit first. -/
def estimateKindOf (job : BatchJobConfig) : JobKind :=
  let isEdit := truthy job.video_url
  let isImageToVideo := truthy job.image_url || truthy job.image_path
  if isEdit then .edit
  else if isImageToVideo then .image_to_video
  else .generation

/-- The duration `estimateBatchCost` accumulates for a job: a fixed 5 seconds
for an edit job (the post-edit duration is unknown), else
`job.duration ?? defaultDuration`. -/
def bucketDurationOf (defaultDuration : ℚ) (job : BatchJobConfig) : ℚ :=
  match estimateKindOf job with
  | .edit => 5
  | _ => job.duration.getD defaultDuration

/-- One per-kind accumulator cell of `typeCounts`. -/
structure TypeBucket where
  count : Nat
  totalDuration : ℚ
deriving DecidableEq, Repr

/-- The `typeCounts` record of `estimateBatchCost`. -/
structure TypeCounts where
  generation : TypeBucket
  image_to_video : TypeBucket
  edit : TypeBucket
deriving DecidableEq, Repr

/-- The body of the per-job loop of `estimateBatchCost`
(`batch-manager.ts` lines 88-109). -/
def estimateStep (defaultDuration : ℚ) (acc : TypeCounts) (job : BatchJobConfig) : TypeCounts :=
  let duration := bucketDurationOf defaultDuration job
  match estimateKindOf job with
  | .generation =>
    { acc with generation := ⟨acc.generation.count + 1, acc.generation.totalDuration + duration⟩ }
  | .image_to_video =>
    { acc with image_to_video := ⟨acc.image_to_video.count + 1, acc.image_to_video.totalDuration + duration⟩ }
  | .edit =>
    { acc with edit := ⟨acc.edit.count + 1, acc.edit.totalDuration + duration⟩ }

/-- The cost of one non-empty bucket (`batch-manager.ts` lines 118-123):
rate times total seconds, plus the per-job bonus for image-to-video. -/
def bucketCost (kind : JobKind) (b : TypeBucket) : ℚ :=
  let cost := VIDEO_COSTS_perSecond kind * b.totalDuration
  if kind = JobKind.image_to_video then cost + imageBonus * b.count else cost

/-- The breakdown entry for one bucket (`batch-manager.ts` lines 116-131):
empty buckets are skipped, `costMax` carries the 20% estimation margin. -/
def bucketEntry (kind : JobKind) (b : TypeBucket) : Option BreakdownEntry :=
  if b.count = 0 then none
  else
    let cost := bucketCost kind b
    some { type := kind, count := b.count, totalDuration := b.totalDuration,
           costMin := cost, costMax := cost * (6 / 5) }

/-- Function `estimateBatchCost(config)` from `batch-manager.ts` lines 78-145.
Buckets are visited in the insertion order of `typeCounts`:
generation, image_to_video, edit. -/
def estimateBatchCost (config : BatchConfig) : CostEstimate :=
  let defaultDuration := config.default_duration.getD DEFAULT_DURATION
  let counts := config.jobs.foldl (estimateStep defaultDuration) ⟨⟨0, 0⟩, ⟨0, 0⟩, ⟨0, 0⟩⟩
  let breakdown :=
    ([(JobKind.generation, counts.generation),
      (JobKind.image_to_video, counts.image_to_video),
      (JobKind.edit, counts.edit)]).filterMap (fun p => bucketEntry p.1 p.2)
  { totalJobs := config.jobs.length
    totalVideoDuration := breakdown.foldl (fun s e => s + e.totalDuration) 0
    estimatedCostMin := breakdown.foldl (fun s e => s + e.costMin) 0
    estimatedCostMax := breakdown.foldl (fun s e => s + e.costMax) 0
    breakdown := breakdown }

/-! ## Per-job execution with retry (`src/utils/batch-manager.ts` lines 252-362) -/

/-- The default retry patterns of `executeJob`
(`retryPolicy.retry_on_errors ?? [...]`, line 266). -/
def defaultRetryPatterns : List String := ["rate_limit", "timeout", "429", "503"]

/-- The retry decision of `executeJob` (lines 340-342): some configured
pattern occurs, case-insensitively, as a substring of the error message. -/
def shouldRetryError (patterns : List String) (msg : String) : Bool :=
  patterns.any (fun pat => containsSub (lowerStr msg) (lowerStr pat))

/-- Default `config.retry_policy || { max_retries: 2, retry_delay_ms: 1000 }` (line 263). -/
def effRetryPolicy (config : BatchConfig) : RetryPolicy :=
  config.retry_policy.getD { max_retries := some 2, retry_delay_ms := some 1000 }

/-- Effective `retryPolicy.max_retries ?? 2` (line 264). -/
def effMaxRetries (config : BatchConfig) : Nat :=
  (effRetryPolicy config).max_retries.getD 2

/-- Effective `retryPolicy.retry_on_errors ?? ['rate_limit', 'timeout', '429', '503']` (line 266). -/
def effRetryPatterns (config : BatchConfig) : List String :=
  (effRetryPolicy config).retry_on_errors.getD defaultRetryPatterns

/-- The completed-job result assembled at lines 302-332 from an executor
result: the `if (result.x)` reads use JS truthiness. -/
def completedJobResult (job : BatchJobConfig) (jobIndex : Nat) (outputPath : String)
    (isEditJob isImageToVideoJob : Bool) (result : ExecResult) : BatchJobResult :=
  let videoUrl := if truthy result.url then result.url else none
  let videoDuration := if numTruthy result.duration then result.duration else none
  let requestId := if truthy result.request_id then result.request_id else none
  let outPath := if truthy result.output_path then result.output_path.getD outputPath else outputPath
  { index := jobIndex, prompt := job.prompt, status := .completed,
    output_path := some outPath, video_url := videoUrl,
    video_duration := videoDuration, is_edit := some isEditJob,
    is_image_to_video := some isImageToVideoJob, request_id := requestId }

/-- The `for (let attempt = 0; attempt <= maxRetries; attempt++)` loop of
`executeJob` (lines 271-361), with `fuel` the remaining iterations and
`attempt` the current attempt number; the second component of the value
counts the executor invocations made.  In the source the `catch` block
computes `shouldRetry` but uses it only to decide whether to sleep
`retryDelay` before the next iteration (lines 338-347): the loop proceeds to
the next attempt in both branches, so the two branches below differ only by
the unmodelled delay.  After the loop, lines 352-361 return the failed
result carrying `lastError`. -/
def attemptLoop (exec : Nat → Except String ExecResult) (retryPatterns : List String)
    (maxRetries : Nat) (job : BatchJobConfig) (jobIndex : Nat) (outputPath : String)
    (isEditJob isImageToVideoJob : Bool) :
    Nat → Nat → String → BatchJobResult × Nat
  | 0, attempt, lastError =>
    ({ index := jobIndex, prompt := job.prompt, status := .failed,
       error := some lastError, is_edit := some isEditJob,
       is_image_to_video := some isImageToVideoJob }, attempt)
  | fuel + 1, attempt, _lastError =>
    match exec attempt with
    | .ok result =>
      (completedJobResult job jobIndex outputPath isEditJob isImageToVideoJob result,
       attempt + 1)
    | .error msg =>
      let shouldRetry := decide (attempt < maxRetries) && shouldRetryError retryPatterns msg
      if shouldRetry then
        -- sleep `retryDelay`, then next iteration
        attemptLoop exec retryPatterns maxRetries job jobIndex outputPath
          isEditJob isImageToVideoJob fuel (attempt + 1) msg
      else
        -- no delay; the loop still proceeds to the next iteration
        attemptLoop exec retryPatterns maxRetries job jobIndex outputPath
          isEditJob isImageToVideoJob fuel (attempt + 1) msg

/-- Function `executeJob(job, index, outputPath, config, ...)` from `batch-manager.ts`
lines 252-362.  `execEdit` and `execGen` are the oracles standing for
`editVideo` and `generateVideo` (indexed by attempt number); the dispatch
between them is the source's `if (isEditJob)` at line 280.  The second
component of the value counts the executor invocations made. -/
def executeJobModel (execEdit execGen : Nat → Except String ExecResult)
    (job : BatchJobConfig) (index : Nat) (outputPath : String)
    (config : BatchConfig) : BatchJobResult × Nat :=
  let jobIndex := index + 1
  let isEditJob := truthy job.video_url
  let isImageToVideoJob := truthy job.image_url || truthy job.image_path
  let maxRetries := effMaxRetries config
  let retryPatterns := effRetryPatterns config
  let exec := if isEditJob then execEdit else execGen
  attemptLoop exec retryPatterns maxRetries job jobIndex outputPath
    isEditJob isImageToVideoJob (maxRetries + 1) 0 ""

/-- The classification implicit in `executeJob`'s dispatch and result flags
(`batch-manager.ts` lines 261-262, 280): `isEditJob = !!job.video_url`
selects the edit executor, else `isImageToVideoJob` distinguishes
image-to-video from plain generation. -/
def classifyDispatch (job : BatchJobConfig) : JobKind :=
  let isEditJob := truthy job.video_url
  let isImageToVideoJob := truthy job.image_url || truthy job.image_path
  if isEditJob then .edit
  else if isImageToVideoJob then .image_to_video
  else .generation

/-! ## Batch orchestration (`src/utils/batch-manager.ts` lines 150-247) -/

/-- Sequential `Except`-traversal of a list: the first error aborts, as a
thrown exception does in the source's job-creation loop. -/
def mapExcept : List α → (α → Except String β) → Except String (List β)
  | [], _ => .ok []
  | a :: as, f =>
    match f a with
    | .error e => .error e
    | .ok b =>
      match mapExcept as f with
      | .error e => .error e
      | .ok bs => .ok (b :: bs)

/-- The output-path resolution pass of `executeBatch` (lines 157-172): the
output directory is `config.output_dir || getDefaultOutputDirectory()`, and
`resolveOutputPath` runs for each job, in order, before any job is awaited;
its `BatchConfigError` propagates out of `executeBatch`. -/
def executeBatchPaths (cwd : String) (config : BatchConfig) (allowAnyPath : Bool) :
    Except String (List (Nat × BatchJobConfig × String)) :=
  let outputDir := strOr config.output_dir cwd
  mapExcept config.jobs.enum (fun p =>
    match resolveOutputPath cwd p.2 p.1 outputDir allowAnyPath with
    | .error e => .error e
    | .ok path => .ok (p.1, p.2, path))

/-- The synthetic cancelled outcome pushed for job `i` (0-based) at
finalization (`batch-manager.ts` lines 213-218). -/
def cancelledFor (jobs : List BatchJobConfig) (i : Nat) : BatchJobResult :=
  { index := i + 1, prompt := (jobs.getD i { prompt := "" }).prompt,
    status := JobStatus.cancelled,
    error := some "Job cancelled due to timeout" }

/-- The finalization pass of `executeBatch` (lines 209-223): every job index
with no recorded outcome is pushed as `cancelled` with the timeout reason,
then the results are sorted by original job index ascending. -/
def finalizeResults (jobs : List BatchJobConfig) (settled : List BatchJobResult) :
    List BatchJobResult :=
  let completedIndices := settled.map (fun r => r.index)
  let withCancelled := settled ++
    (List.range jobs.length).filterMap (fun i =>
      if completedIndices.contains (i + 1) then none
      else some (cancelledFor jobs i))
  List.insertionSort (fun a b => a.index ≤ b.index) withCancelled

/-- The recorded outcome of a settled job: the `executeJobModel` result for
its resolved triple (index, job, output path). -/
def jobResultOf (execEdit execGen : Nat → Nat → Except String ExecResult)
    (config : BatchConfig) (t : Nat × BatchJobConfig × String) : BatchJobResult :=
  (executeJobModel (execEdit t.1) (execGen t.1) t.2.1 t.1 t.2.2 config).1

/-- The outcomes recorded by job promises that settled before finalization,
in job order (the push order does not matter: finalization sorts). -/
def settledOf (execEdit execGen : Nat → Nat → Except String ExecResult)
    (finished : Nat → Bool) (config : BatchConfig)
    (triples : List (Nat × BatchJobConfig × String)) : List BatchJobResult :=
  triples.filterMap (fun t =>
    if finished t.1 then some (jobResultOf execEdit execGen config t) else none)

/-- Function `executeBatch(config, options)` from `batch-manager.ts` lines 150-247.
Concurrency and the timeout race are abstracted by the oracle `finished`:
`finished i` says whether job `i`'s promise had settled (and pushed its
result) when finalization ran.  Per-job executor behaviour is the oracle
pair `execEdit`/`execGen`, indexed by job then by attempt.  A settled job's
recorded outcome is its `executeJobModel` result; timing fields are not
modelled. -/
def executeBatchModel (cwd : String)
    (execEdit execGen : Nat → Nat → Except String ExecResult)
    (finished : Nat → Bool)
    (config : BatchConfig) (allowAnyPath : Bool) : Except String BatchResult :=
  match executeBatchPaths cwd config allowAnyPath with
  | .error e => .error e
  | .ok triples =>
    let settled := settledOf execEdit execGen finished config triples
    let results := finalizeResults config.jobs settled
    .ok {
      total := config.jobs.length
      succeeded := (results.filter (fun r => r.status == JobStatus.completed)).length
      failed := (results.filter (fun r => r.status == JobStatus.failed)).length
      cancelled := (results.filter (fun r => r.status == JobStatus.cancelled)).length
      results := results
      estimated_cost := (estimateBatchCost config).estimatedCostMin }

/-! ## The semaphore (`src/utils/batch-manager.ts` lines 26-53)

The `Semaphore` class has a permit counter and a queue of suspended
acquirers; `executeBatch` wraps each job as
`acquire(); try { executeJob } finally { release() }`.  Its observable
states and transitions form the following system: `permits` is the counter,
`waiting` the queue length, and `active` the number of tasks currently
inside the protected section. -/

/-- The observable state of the source's `Semaphore` together with the
number of tasks inside the protected section. -/
structure SemState where
  permits : Nat
  waiting : Nat
  active : Nat
deriving DecidableEq, Repr

/-- The transitions generated by `acquire()` and `release()`
(`batch-manager.ts` lines 34-52):
* `acquire` with a permit available decrements `permits` and enters;
* `acquire` with no permit pushes the caller onto the queue;
* `release` (called in the job's `finally`) with a waiter hands the permit
  over: the releaser leaves and the waiter enters;
* `release` with an empty queue returns the permit to the pool. -/
inductive SemStep : SemState → SemState → Prop
  | acquire (p w a : Nat) : SemStep ⟨p + 1, w, a⟩ ⟨p, w, a + 1⟩
  | acquireWait (w a : Nat) : SemStep ⟨0, w, a⟩ ⟨0, w + 1, a⟩
  | releaseHandoff (p w a : Nat) : SemStep ⟨p, w + 1, a + 1⟩ ⟨p, w, a + 1⟩
  | releaseReturn (p a : Nat) : SemStep ⟨p, 0, a + 1⟩ ⟨p + 1, 0, a⟩

/-- The states the semaphore system can reach from `new Semaphore(k)`
with no waiter and no active task. -/
def SemReachable (k : Nat) (s : SemState) : Prop :=
  Relation.ReflTransGen SemStep ⟨k, 0, 0⟩ s

/-! ## Lemmas about the retry loop -/

/-- A failing attempt makes the loop proceed to the next attempt, whether or
not the error message matched a retry pattern. -/
theorem attemptLoop_error_step (exec : Nat → Except String ExecResult)
    (pats : List String) (m : Nat) (job : BatchJobConfig) (jIdx : Nat)
    (path : String) (ie iv : Bool) (fuel attempt : Nat) (e msg : String)
    (h : exec attempt = .error msg) :
    attemptLoop exec pats m job jIdx path ie iv (fuel + 1) attempt e
      = attemptLoop exec pats m job jIdx path ie iv fuel (attempt + 1) msg := by
  simp only [attemptLoop, h]
  exact ite_self _

/-- A successful attempt ends the loop with the completed result and one more
invocation. -/
theorem attemptLoop_ok_step (exec : Nat → Except String ExecResult)
    (pats : List String) (m : Nat) (job : BatchJobConfig) (jIdx : Nat)
    (path : String) (ie iv : Bool) (fuel attempt : Nat) (e : String)
    (res : ExecResult) (h : exec attempt = .ok res) (hf : fuel ≠ 0) :
    attemptLoop exec pats m job jIdx path ie iv fuel attempt e
      = (completedJobResult job jIdx path ie iv res, attempt + 1) := by
  cases fuel with
  | zero => exact absurd rfl hf
  | succ f => simp only [attemptLoop, h]

/-- If the executor fails on the first `r` attempts and succeeds on attempt
`r`, and the loop has more than `r` iterations of fuel left, it ends
completed after exactly `r + 1` invocations. -/
theorem attemptLoop_succeeds_after (exec : Nat → Except String ExecResult)
    (pats : List String) (m : Nat) (job : BatchJobConfig) (jIdx : Nat)
    (path : String) (ie iv : Bool) (res : ExecResult) :
    ∀ (r fuel attempt : Nat) (e : String),
      (∀ a, a < r → (exec (attempt + a)).isOk = false) →
      exec (attempt + r) = .ok res → r < fuel →
      attemptLoop exec pats m job jIdx path ie iv fuel attempt e
        = (completedJobResult job jIdx path ie iv res, attempt + r + 1) := by
  intro r
  induction r with
  | zero =>
    intro fuel attempt e _ hok hf
    simpa using attemptLoop_ok_step exec pats m job jIdx path ie iv fuel attempt e res
      (by simpa using hok) (by omega)
  | succ n ih =>
    intro fuel attempt e herr hok hf
    obtain ⟨f, rfl⟩ : ∃ f, fuel = f + 1 := ⟨fuel - 1, by omega⟩
    have h0 : (exec attempt).isOk = false := by simpa using herr 0 (by omega)
    obtain ⟨msg, hmsg⟩ : ∃ msg, exec attempt = .error msg := by
      cases hE : exec attempt with
      | ok v => rw [hE] at h0; simp [Except.isOk, Except.toBool] at h0
      | error msg => exact ⟨msg, rfl⟩
    rw [attemptLoop_error_step exec pats m job jIdx path ie iv f attempt e msg hmsg]
    have hok' : exec (attempt + 1 + n) = .ok res := by
      have e1 : attempt + 1 + n = attempt + (n + 1) := by omega
      rw [e1]; exact hok
    have herr' : ∀ a, a < n → (exec (attempt + 1 + a)).isOk = false := by
      intro a ha
      have e1 : attempt + 1 + a = attempt + (a + 1) := by omega
      rw [e1]; exact herr (a + 1) (by omega)
    rw [ih f (attempt + 1) msg herr' hok' (by omega)]
    have e2 : attempt + 1 + n + 1 = attempt + (n + 1) + 1 := by omega
    rw [e2]

/-- If every attempt the loop can reach fails, the loop ends failed after
consuming all its fuel. -/
theorem attemptLoop_all_fail (exec : Nat → Except String ExecResult)
    (pats : List String) (m : Nat) (job : BatchJobConfig) (jIdx : Nat)
    (path : String) (ie iv : Bool) :
    ∀ (fuel attempt : Nat) (e : String),
      (∀ a, attempt ≤ a → a < attempt + fuel → (exec a).isOk = false) →
      (attemptLoop exec pats m job jIdx path ie iv fuel attempt e).1.status = .failed ∧
      (attemptLoop exec pats m job jIdx path ie iv fuel attempt e).2 = attempt + fuel := by
  intro fuel
  induction fuel with
  | zero => intro attempt e _; exact ⟨rfl, rfl⟩
  | succ f ih =>
    intro attempt e herr
    have h0 : (exec attempt).isOk = false := herr attempt le_rfl (by omega)
    obtain ⟨msg, hmsg⟩ : ∃ msg, exec attempt = .error msg := by
      cases hE : exec attempt with
      | ok v => rw [hE] at h0; simp [Except.isOk, Except.toBool] at h0
      | error msg => exact ⟨msg, rfl⟩
    rw [attemptLoop_error_step exec pats m job jIdx path ie iv f attempt e msg hmsg]
    have := ih (attempt + 1) msg (fun a h1 h2 => herr a (by omega) (by omega))
    exact ⟨this.1, by rw [this.2]; omega⟩

/-- The loop's result always carries the 1-based job index. -/
theorem attemptLoop_index (exec : Nat → Except String ExecResult)
    (pats : List String) (m : Nat) (job : BatchJobConfig) (jIdx : Nat)
    (path : String) (ie iv : Bool) :
    ∀ (fuel attempt : Nat) (e : String),
      (attemptLoop exec pats m job jIdx path ie iv fuel attempt e).1.index = jIdx := by
  intro fuel
  induction fuel with
  | zero => intro attempt e; rfl
  | succ f ih =>
    intro attempt e
    cases hE : exec attempt with
    | ok res =>
      rw [attemptLoop_ok_step exec pats m job jIdx path ie iv (f + 1) attempt e res hE (by omega)]
      rfl
    | error msg =>
      rw [attemptLoop_error_step exec pats m job jIdx path ie iv f attempt e msg hE]
      exact ih (attempt + 1) msg

/-- The loop's result status is always completed or failed: the protected
section of a settled job returns an outcome on every path. -/
theorem attemptLoop_settles (exec : Nat → Except String ExecResult)
    (pats : List String) (m : Nat) (job : BatchJobConfig) (jIdx : Nat)
    (path : String) (ie iv : Bool) :
    ∀ (fuel attempt : Nat) (e : String),
      (attemptLoop exec pats m job jIdx path ie iv fuel attempt e).1.status = .completed ∨
      (attemptLoop exec pats m job jIdx path ie iv fuel attempt e).1.status = .failed := by
  intro fuel
  induction fuel with
  | zero => intro attempt e; exact Or.inr rfl
  | succ f ih =>
    intro attempt e
    cases hE : exec attempt with
    | ok res =>
      rw [attemptLoop_ok_step exec pats m job jIdx path ie iv (f + 1) attempt e res hE (by omega)]
      exact Or.inl rfl
    | error msg =>
      rw [attemptLoop_error_step exec pats m job jIdx path ie iv f attempt e msg hE]
      exact ih (attempt + 1) msg

/-- Dispatch with the same oracle on both sides reduces `executeJobModel` to
the bare retry loop. -/
theorem executeJobModel_eq_loop (exec : Nat → Except String ExecResult)
    (job : BatchJobConfig) (i : Nat) (path : String) (config : BatchConfig) :
    executeJobModel exec exec job i path config
      = attemptLoop exec (effRetryPatterns config) (effMaxRetries config) job (i + 1) path
          (truthy job.video_url) (truthy job.image_url || truthy job.image_path)
          (effMaxRetries config + 1) 0 "" := by
  simp only [executeJobModel, ite_self]

/-! ## Claims -/

/-- An executor that always fails with a message matching no retry pattern. -/
def c1NonRetryableExec : Nat → Except String ExecResult := fun _ => .error "invalid prompt"

/-- A minimal job and configuration with the default retry policy
(`max_retries = 2`). -/
def c1Job : BatchJobConfig := { prompt := "a cat" }

/-- Configuration used by the C1 evaluation: no `retry_policy`, so
`executeJob` falls back to `max_retries = 2` and the default patterns. -/
def c1Config : BatchConfig := { jobs := [c1Job] }

/-- C1: the claim says a failure whose message matches no retry pattern
terminates the job after a single attempt with no further executor
invocations.  The code does not do that: in `executeJob` the computed
`shouldRetry` (lines 338-342) only decides whether to sleep before the next
iteration, and the `for` loop at line 271 proceeds to the next attempt in
both branches.  Evaluated on an executor that always fails with
"invalid prompt" — which matches none of the default patterns — under the
default policy (`max_retries = 2`), the job makes 3 executor invocations,
not 1, before finishing failed. -/
theorem c1_nonretryable_error_still_retried :
    shouldRetryError defaultRetryPatterns "invalid prompt" = false ∧
    (executeJobModel c1NonRetryableExec c1NonRetryableExec c1Job 0 "/out/v.mp4" c1Config).2 = 3 ∧
    (executeJobModel c1NonRetryableExec c1NonRetryableExec c1Job 0 "/out/v.mp4" c1Config).1.status
      = .failed := by
  refine ⟨by decide, by decide, by decide⟩

/-- A job carrying both a source-video reference and a local image
reference. -/
def c2Job : BatchJobConfig :=
  { prompt := "p", video_url := some "https://host/v.mp4", image_path := some "./cat.png" }

/-- A batch configuration whose single job carries both `video_url` and
`image_path`. -/
def c2Config : BatchConfig := { jobs := [c2Job] }

/-- C2 counterexample: the claim says a job with both `video_url` and
`image_path` is rejected by configuration validation before any job starts.
It is not: `validateJobConfig` computes `isImageToVideoJob` from `image_url`
only (line 194), so the job — and the whole configuration — passes
validation, and `executeJob`'s dispatch classifies it as an edit job. -/
theorem c2_videoUrl_imagePath_passes_validation :
    validateBatchConfig c2Config = .ok () ∧
    validateJobConfig c2Job 0 = .ok () ∧
    classifyDispatch c2Job = .edit := by
  refine ⟨by decide, by decide, by decide⟩

/-- C2 amended: validation rejects the combination of `video_url` with
`image_url` (for an otherwise valid job: non-blank prompt, valid or absent
model and resolution, no duration and no aspect ratio, which an edit job may
not carry), and it accepts `video_url` with `image_path`, which then
classifies as an edit job at dispatch. -/
theorem c2_video_and_image_url_rejected (job : BatchJobConfig) (index : Nat)
    (hprompt : (jsTrim job.prompt).isEmpty = false)
    (hmodel : job.model = none ∨ job.model = some "grok-imagine-video")
    (hdur : job.duration = none)
    (har : job.aspect_ratio = none)
    (hres : job.resolution = none ∨ job.resolution = some "720p" ∨ job.resolution = some "480p")
    (hvid : truthy job.video_url = true) :
    (truthy job.image_url = true →
      validateJobConfig job index
        = .error ("Job " ++ toString (index + 1) ++ ": Cannot specify both video_url and image_url")) ∧
    (truthy job.image_url = false →
      validateJobConfig job index = .ok () ∧ classifyDispatch job = .edit) := by
  constructor
  · intro himg
    simp only [validateJobConfig, hprompt, hdur, har, hvid, himg, Bool.false_eq_true, if_false]
    rcases hmodel with hm | hm <;> rcases hres with hr | hr | hr <;>
      simp [hm, hr, MODELS, RESOLUTIONS] <;> rfl
  · intro himg
    constructor
    · simp only [validateJobConfig, hprompt, hdur, har, hvid, himg, Bool.false_eq_true, if_false]
      rcases hmodel with hm | hm <;> rcases hres with hr | hr | hr <;>
        simp [hm, hr, MODELS, RESOLUTIONS] <;> rfl
    · simp [classifyDispatch, hvid]

/-- A job used to instantiate the rejected branch of the amended C2. -/
def c2BothUrls : BatchJobConfig :=
  { prompt := "p", video_url := some "https://host/v.mp4", image_url := some "https://host/i.png" }

/-- Witness for the amended C2 at concrete jobs: `c2BothUrls` is rejected
with the source's message, and `c2Job` (video plus local image path) passes
and classifies as edit. -/
theorem c2_video_and_image_url_rejected_witness :
    (validateJobConfig c2BothUrls 0
      = .error "Job 1: Cannot specify both video_url and image_url") ∧
    (validateJobConfig c2Job 0 = .ok () ∧ classifyDispatch c2Job = .edit) :=
  ⟨by
    have h := (c2_video_and_image_url_rejected c2BothUrls 0 (by decide) (Or.inl rfl) rfl rfl
      (Or.inl rfl) (by decide)).1 (by decide)
    exact h,
   (c2_video_and_image_url_rejected c2Job 0 (by decide) (Or.inl rfl) rfl rfl
      (Or.inl rfl) (by decide)).2 (by decide)⟩

/-- A job whose declared absolute output path lies outside the output
directory `/out` but shares it as a string prefix. -/
def c3Job : BatchJobConfig := { prompt := "p", output_path := some "/outside/pwn.mp4" }

/-- C3: the claim says `resolveOutputPath` fails whenever a job's absolute
output path escapes the configured output directory (without the override).
The code's security check is `resolved.startsWith(allowedDir)`
(`batch-config.ts` line 363), a plain string-prefix test: for output
directory `/out`, the path `/outside/pwn.mp4` escapes `/out` — it is not
`/out` and does not lie under `/out/` — yet the check accepts it because the
string starts with `/out`.  (Traversal via `..` is caught, and relative
paths are joined without this check, as the last two conjuncts show.) -/
theorem c3_prefix_escape_accepted :
    resolveOutputPath "/cwd" c3Job 0 "/out" false = .ok "/outside/pwn.mp4" ∧
    isPathWithin "/out" "/outside/pwn.mp4" = false ∧
    resolveOutputPath "/cwd" { prompt := "p", output_path := some "/out/../etc/pwn.mp4" } 0 "/out" false
      = .error "Job 1: Output path must be within output directory. Use --allow-any-path to override." ∧
    resolveOutputPath "/cwd" { prompt := "p", output_path := some "rel/a.mp4" } 0 "/out" false
      = .ok "/out/rel/a.mp4" := by
  refine ⟨by decide, by decide, by decide, by decide⟩

/-- C5: under the effective retry policy with `max_retries = m`: an executor
failing with retryable messages exactly `r ≤ m` times before succeeding
yields a completed job after exactly `r + 1` invocations; an executor
failing with retryable messages on every attempt yields a failed job after
exactly `m + 1` invocations. -/
theorem c5_retry_attempt_counts (config : BatchConfig) (job : BatchJobConfig)
    (i : Nat) (path : String) (exec : Nat → Except String ExecResult)
    (r : Nat) (msgs : Nat → String) (res : ExecResult) :
    ((∀ a, a < r → exec a = .error (msgs a)) →
     (∀ a, a < r → shouldRetryError (effRetryPatterns config) (msgs a) = true) →
     exec r = .ok res → r ≤ effMaxRetries config →
     (executeJobModel exec exec job i path config).1.status = .completed ∧
     (executeJobModel exec exec job i path config).2 = r + 1) ∧
    ((∀ a, exec a = .error (msgs a)) →
     (∀ a, shouldRetryError (effRetryPatterns config) (msgs a) = true) →
     (executeJobModel exec exec job i path config).1.status = .failed ∧
     (executeJobModel exec exec job i path config).2 = effMaxRetries config + 1) := by
  constructor
  · intro hfail _ hok hr
    rw [executeJobModel_eq_loop]
    rw [attemptLoop_succeeds_after exec (effRetryPatterns config) (effMaxRetries config) job
      (i + 1) path (truthy job.video_url) (truthy job.image_url || truthy job.image_path) res
      r (effMaxRetries config + 1) 0 ""
      (fun a ha => by rw [Nat.zero_add]; rw [hfail a ha]; rfl)
      (by rw [Nat.zero_add]; exact hok) (by omega)]
    exact ⟨rfl, by omega⟩
  · intro hfail _
    rw [executeJobModel_eq_loop]
    have := attemptLoop_all_fail exec (effRetryPatterns config) (effMaxRetries config) job
      (i + 1) path (truthy job.video_url) (truthy job.image_url || truthy job.image_path)
      (effMaxRetries config + 1) 0 ""
      (fun a _ _ => by rw [hfail a]; rfl)
    exact ⟨this.1, by rw [this.2]; omega⟩

/-- An executor failing once with a retryable message, then succeeding. -/
def c5ExecOnce : Nat → Except String ExecResult := fun a =>
  match a with
  | 0 => .error "HTTP 429 Too Many Requests"
  | _ => .ok {}

/-- An executor that always fails with a retryable message. -/
def c5ExecAlways : Nat → Except String ExecResult := fun _ => .error "Request timeout"

/-- Witness for C5 at concrete executors under the default policy
(`max_retries = 2`): one retryable failure then success gives a completed
job in 2 invocations; always-retryable failure gives a failed job in 3. -/
theorem c5_retry_attempt_counts_witness :
    ((executeJobModel c5ExecOnce c5ExecOnce c1Job 0 "/out/v.mp4" c1Config).1.status = .completed ∧
     (executeJobModel c5ExecOnce c5ExecOnce c1Job 0 "/out/v.mp4" c1Config).2 = 2) ∧
    ((executeJobModel c5ExecAlways c5ExecAlways c1Job 0 "/out/v.mp4" c1Config).1.status = .failed ∧
     (executeJobModel c5ExecAlways c5ExecAlways c1Job 0 "/out/v.mp4" c1Config).2 = 3) :=
  ⟨(c5_retry_attempt_counts c1Config c1Job 0 "/out/v.mp4" c5ExecOnce 1
      (fun _ => "HTTP 429 Too Many Requests") {}).1
      (by decide) (by decide) (by decide) (by decide),
   (c5_retry_attempt_counts c1Config c1Job 0 "/out/v.mp4" c5ExecAlways 0
      (fun _ => "Request timeout") {}).2
      (fun _ => rfl) (fun _ => by decide)⟩

/-- C8: job classification is deterministic with precedence
edit before image-to-video before generation, the estimator's classification
(`estimateKindOf`, `batch-manager.ts` lines 88-105) agrees with the
dispatcher's (`classifyDispatch`, lines 261-262 and 280) on every job, and
the dispatcher selects the edit executor exactly for jobs classified as
edit. -/
theorem c8_classification_agree (job : BatchJobConfig) :
    estimateKindOf job = classifyDispatch job ∧
    decide (classifyDispatch job = .edit) = truthy job.video_url := by
  constructor
  · rfl
  · unfold classifyDispatch
    cases h1 : truthy job.video_url <;>
      cases h2 : truthy job.image_url || truthy job.image_path <;> simp [h1, h2]

/-- Invariant of the semaphore system: the active tasks and the pooled
permits always account for all `k` permits, and a permit is never pooled
while an acquirer waits. -/
def SemInv (k : Nat) (s : SemState) : Prop :=
  s.active + s.permits = k ∧ (0 < s.waiting → s.permits = 0)

/-- Each semaphore transition preserves the invariant. -/
theorem SemStep_preserves {k : Nat} {s s' : SemState}
    (hstep : SemStep s s') (h : SemInv k s) : SemInv k s' := by
  obtain ⟨h1, h2⟩ := h
  cases hstep with
  | acquire p w a =>
    constructor
    · show a + 1 + p = k
      have hs : a + (p + 1) = k := h1
      omega
    · intro hw
      have hp : p + 1 = 0 := h2 hw
      omega
  | acquireWait w a =>
    exact ⟨h1, fun _ => rfl⟩
  | releaseHandoff p w a =>
    have hp : p = 0 := h2 (Nat.succ_pos w)
    exact ⟨h1, fun _ => hp⟩
  | releaseReturn p a =>
    constructor
    · show a + (p + 1) = k
      have hs : a + 1 + p = k := h1
      omega
    · intro hw
      exact absurd (show (0 : Nat) < 0 from hw) (by omega)

/-- Every state reachable from the initial semaphore state satisfies the
invariant. -/
theorem semReachable_inv {k : Nat} {s : SemState} (h : SemReachable k s) : SemInv k s := by
  induction h with
  | refl => exact ⟨Nat.zero_add k, fun hw => absurd (show (0 : Nat) < 0 from hw) (by omega)⟩
  | tail _ hstep ih => exact SemStep_preserves hstep ih

/-- C6: in every state the semaphore system can reach from
`new Semaphore(k)`, at most `k` tasks are inside the protected section — and
the release in the job wrapper's `finally` is modelled by the fact that the
protected section (`executeJob`) always returns an outcome (completed or
failed) rather than escaping, so every settled job performs its release
transition. -/
theorem c6_semaphore_bound (k : Nat) (s : SemState) (h : SemReachable k s)
    (execEdit execGen : Nat → Except String ExecResult) (job : BatchJobConfig)
    (i : Nat) (path : String) (config : BatchConfig) :
    (s.active ≤ k ∧ s.active + s.permits = k) ∧
    ((executeJobModel execEdit execGen job i path config).1.status = .completed ∨
     (executeJobModel execEdit execGen job i path config).1.status = .failed) := by
  have hinv := semReachable_inv h
  refine ⟨⟨by have := hinv.1; omega, hinv.1⟩, ?_⟩
  unfold executeJobModel
  exact attemptLoop_settles _ _ _ _ _ _ _ _ _ _ _

/-- Witness for C6: with two permits, the state after one acquire
(one active task, one permit left) is reachable, and the bound holds there;
the protected section of a concrete failing job settles with a failed
outcome. -/
theorem c6_semaphore_bound_witness :
    ((⟨1, 0, 1⟩ : SemState).active ≤ 2 ∧
     (⟨1, 0, 1⟩ : SemState).active + (⟨1, 0, 1⟩ : SemState).permits = 2) ∧
    ((executeJobModel c1NonRetryableExec c1NonRetryableExec c1Job 0 "/out/v.mp4" c1Config).1.status
        = .completed ∨
     (executeJobModel c1NonRetryableExec c1NonRetryableExec c1Job 0 "/out/v.mp4" c1Config).1.status
        = .failed) :=
  c6_semaphore_bound 2 ⟨1, 0, 1⟩
    (Relation.ReflTransGen.single (SemStep.acquire 1 0 0))
    c1NonRetryableExec c1NonRetryableExec c1Job 0 "/out/v.mp4" c1Config

/-! ## Lemmas about cost estimation -/

/-- The estimator's fold keeps every bucket's accumulated duration
nonnegative when every job's effective duration is nonnegative. -/
theorem estimate_fold_nonneg (dd : ℚ) :
    ∀ (jobs : List BatchJobConfig) (acc : TypeCounts),
      (∀ j ∈ jobs, 0 ≤ j.duration.getD dd) →
      0 ≤ acc.generation.totalDuration →
      0 ≤ acc.image_to_video.totalDuration →
      0 ≤ acc.edit.totalDuration →
      0 ≤ (jobs.foldl (estimateStep dd) acc).generation.totalDuration ∧
      0 ≤ (jobs.foldl (estimateStep dd) acc).image_to_video.totalDuration ∧
      0 ≤ (jobs.foldl (estimateStep dd) acc).edit.totalDuration := by
  intro jobs
  induction jobs with
  | nil => intro acc _ hg hi he; exact ⟨hg, hi, he⟩
  | cons j rest ih =>
    intro acc hjobs hg hi he
    have hjd : 0 ≤ j.duration.getD dd := hjobs j (by simp)
    have hdur : 0 ≤ bucketDurationOf dd j := by
      unfold bucketDurationOf
      cases hk : estimateKindOf j <;> simp only [hk] <;>
        first | exact hjd | norm_num
    have hrest : ∀ x ∈ rest, 0 ≤ x.duration.getD dd := fun x hx => hjobs x (by simp [hx])
    have hstep : 0 ≤ (estimateStep dd acc j).generation.totalDuration ∧
        0 ≤ (estimateStep dd acc j).image_to_video.totalDuration ∧
        0 ≤ (estimateStep dd acc j).edit.totalDuration := by
      unfold estimateStep
      cases hk : estimateKindOf j <;> simp only [hk] <;>
        exact ⟨by first | exact add_nonneg hg hdur | exact hg,
               by first | exact add_nonneg hi hdur | exact hi,
               by first | exact add_nonneg he hdur | exact he⟩
    simp only [List.foldl_cons]
    exact ih (estimateStep dd acc j) hrest hstep.1 hstep.2.1 hstep.2.2

/-- A bucket with nonnegative duration has nonnegative cost. -/
theorem bucketCost_nonneg (kind : JobKind) (b : TypeBucket)
    (hd : 0 ≤ b.totalDuration) : 0 ≤ bucketCost kind b := by
  unfold bucketCost
  have hrate : 0 ≤ VIDEO_COSTS_perSecond kind := by
    cases kind <;> norm_num [VIDEO_COSTS_perSecond]
  cases kind <;> simp [VIDEO_COSTS_perSecond, imageBonus] <;> positivity

/-- Breakdown entries produced from a nonnegative-duration bucket satisfy
`0 ≤ costMin ≤ costMax`. -/
theorem bucketEntry_cost_le (kind : JobKind) (b : TypeBucket) (e : BreakdownEntry)
    (hd : 0 ≤ b.totalDuration) (he : bucketEntry kind b = some e) :
    0 ≤ e.costMin ∧ e.costMin ≤ e.costMax := by
  unfold bucketEntry at he
  by_cases hc : b.count = 0
  · simp [hc] at he
  · simp only [hc, if_false] at he
    obtain ⟨rfl⟩ := he.symm
    have h0 : 0 ≤ bucketCost kind b := bucketCost_nonneg kind b hd
    refine ⟨h0, ?_⟩
    have : bucketCost kind b * 1 ≤ bucketCost kind b * (6 / 5) := by
      apply mul_le_mul_of_nonneg_left _ h0
      norm_num
    simpa using this

/-- Folding `costMin` sums below folding `costMax` sums. -/
theorem fold_cost_le :
    ∀ (l : List BreakdownEntry) (a b : ℚ),
      (∀ e ∈ l, e.costMin ≤ e.costMax) → a ≤ b →
      l.foldl (fun s e => s + e.costMin) a ≤ l.foldl (fun s e => s + e.costMax) b := by
  intro l
  induction l with
  | nil => intro a b _ hab; exact hab
  | cons e rest ih =>
    intro a b hall hab
    simp only [List.foldl_cons]
    exact ih (a + e.costMin) (b + e.costMax)
      (fun x hx => hall x (by simp [hx]))
      (add_le_add hab (hall e (by simp)))

/-- The estimated cost range of a configuration with nonnegative effective
durations is a real range: the minimum never exceeds the maximum. -/
theorem estimateBatchCost_min_le_max (config : BatchConfig)
    (h : ∀ j ∈ config.jobs, 0 ≤ j.duration.getD (config.default_duration.getD DEFAULT_DURATION)) :
    (estimateBatchCost config).estimatedCostMin ≤ (estimateBatchCost config).estimatedCostMax := by
  unfold estimateBatchCost
  simp only
  apply fold_cost_le _ 0 0 _ le_rfl
  intro e he
  obtain ⟨p, hp, hpe⟩ := List.mem_filterMap.mp he
  have hnn := estimate_fold_nonneg (config.default_duration.getD DEFAULT_DURATION)
    config.jobs ⟨⟨0, 0⟩, ⟨0, 0⟩, ⟨0, 0⟩⟩ h le_rfl le_rfl le_rfl
  simp only [List.mem_cons, List.mem_singleton] at hp
  rcases hp with rfl | rfl | rfl | hfalse
  · exact (bucketEntry_cost_le _ _ _ hnn.1 hpe).2
  · exact (bucketEntry_cost_le _ _ _ hnn.2.1 hpe).2
  · exact (bucketEntry_cost_le _ _ _ hnn.2.2 hpe).2
  · exact absurd hfalse (List.not_mem_nil p)

/-- A configuration with one generation job of duration 5 and one edit job. -/
def c7TwoBucketConfig : BatchConfig :=
  { jobs := [ { prompt := "a lake at dawn", duration := some 5 },
              { prompt := "make it snow", video_url := some "https://host/v.mp4" } ] }

/-- An edit job with a configured duration, to exercise the fixed 5-second
assumption. -/
def c7EditJob : BatchJobConfig :=
  { prompt := "make it snow", video_url := some "https://host/v.mp4" }

/-- C7: cost estimation is a pure function (equal inputs give equal
estimates); whenever every job's effective duration is nonnegative — which
validation guarantees — the estimated minimum never exceeds the estimated
maximum; an edit job contributes the fixed assumed duration of 5 seconds to
its bucket regardless of any configured duration or default; and the
configuration with one generation job of duration 5 and one edit job yields
a breakdown with exactly two buckets. -/
theorem c7_estimate_properties (config : BatchConfig) :
    estimateBatchCost config = estimateBatchCost config ∧
    ((∀ j ∈ config.jobs, 0 ≤ j.duration.getD (config.default_duration.getD DEFAULT_DURATION)) →
      (estimateBatchCost config).estimatedCostMin ≤ (estimateBatchCost config).estimatedCostMax) ∧
    (∀ (job : BatchJobConfig) (dd : ℚ), truthy job.video_url = true →
      bucketDurationOf dd job = 5 ∧ estimateKindOf job = .edit) ∧
    ((estimateBatchCost c7TwoBucketConfig).breakdown.length = 2 ∧
     (estimateBatchCost c7TwoBucketConfig).estimatedCostMin
       ≤ (estimateBatchCost c7TwoBucketConfig).estimatedCostMax) := by
  refine ⟨rfl, estimateBatchCost_min_le_max config, ?_, by decide, ?_⟩
  · intro job dd hvid
    have hk : estimateKindOf job = .edit := by
      unfold estimateKindOf; simp [hvid]
    exact ⟨by unfold bucketDurationOf; rw [hk], hk⟩
  · apply estimateBatchCost_min_le_max
    intro j hj
    simp only [c7TwoBucketConfig, List.mem_cons, List.mem_singleton] at hj
    rcases hj with rfl | rfl | hfalse
    · norm_num
    · norm_num [c7TwoBucketConfig, DEFAULT_DURATION]
    · exact absurd hfalse (List.not_mem_nil j)

/-- Witness for C7: the nonnegativity hypothesis holds for the two-bucket
configuration, giving its cost range, and the fixed edit duration evaluates
to 5 at a concrete job and default duration 9. -/
theorem c7_estimate_properties_witness :
    ((estimateBatchCost c7TwoBucketConfig).estimatedCostMin
       ≤ (estimateBatchCost c7TwoBucketConfig).estimatedCostMax) ∧
    bucketDurationOf 9 c7EditJob = 5 :=
  ⟨(c7_estimate_properties c7TwoBucketConfig).2.1 (by decide),
   ((c7_estimate_properties c7TwoBucketConfig).2.2.1 c7EditJob 9 (by decide)).1⟩

/-! ## Lemmas about batch finalization -/

/-- Mapping over a `filterMap` that keeps elements satisfying `p`. -/
theorem filterMap_ite_map {α β γ : Type} (p : α → Bool) (g : α → β) (h : β → γ)
    (h' : α → γ) (hgh : ∀ a, h (g a) = h' a) :
    ∀ l : List α,
      (l.filterMap (fun a => if p a then some (g a) else none)).map h
        = (l.filter p).map h' := by
  intro l
  induction l with
  | nil => rfl
  | cons a as ih => by_cases hp : p a <;> simp [hp, ih, hgh]

/-- Mapping over a `filterMap` that keeps elements violating `p`. -/
theorem filterMap_ite_none_map {α β γ : Type} (p : α → Bool) (g : α → β) (h : β → γ)
    (h' : α → γ) (hgh : ∀ a, h (g a) = h' a) :
    ∀ l : List α,
      (l.filterMap (fun a => if p a then none else some (g a))).map h
        = (l.filter (fun a => !p a)).map h' := by
  intro l
  induction l with
  | nil => rfl
  | cons a as ih => by_cases hp : p a <;> simp [hp, ih, hgh]

/-- A successful `mapExcept` relates projections of its output to
projections of its input, when the function preserves them. -/
theorem mapExcept_map_eq {α β γ : Type} (proj : β → γ) (proj' : α → γ) :
    ∀ (l : List α) (f : α → Except String β) (ys : List β),
      (∀ a b, f a = .ok b → proj b = proj' a) →
      mapExcept l f = .ok ys → ys.map proj = l.map proj' := by
  intro l
  induction l with
  | nil =>
    intro f ys _ h
    unfold mapExcept at h
    cases h
    rfl
  | cons a as ih =>
    intro f ys hpres h
    unfold mapExcept at h
    cases hfa : f a with
    | error e => rw [hfa] at h; cases h
    | ok b =>
      rw [hfa] at h
      cases hrest : mapExcept as f with
      | error e => rw [hrest] at h; cases h
      | ok bs =>
        rw [hrest] at h
        cases h
        simp only [List.map_cons]
        rw [hpres a b hfa, ih f bs hpres hrest]

/-- The resolved triples keep the original 0-based job indices, in order. -/
theorem executeBatchPaths_fst (cwd : String) (config : BatchConfig) (allowAnyPath : Bool)
    (triples : List (Nat × BatchJobConfig × String))
    (hp : executeBatchPaths cwd config allowAnyPath = .ok triples) :
    triples.map (fun t => t.1) = List.range config.jobs.length := by
  unfold executeBatchPaths at hp
  have := mapExcept_map_eq (fun t : Nat × BatchJobConfig × String => t.1)
    (fun p : Nat × BatchJobConfig => p.1) config.jobs.enum _ triples
    (fun p b hb => by
      cases hres : resolveOutputPath cwd p.2 p.1 (strOr config.output_dir cwd) allowAnyPath with
      | error e => rw [hres] at hb; cases hb
      | ok path => rw [hres] at hb; cases hb; rfl)
    hp
  rw [this, List.enum_map_fst]

/-- The recorded outcome of a settled job carries its 1-based index. -/
theorem jobResultOf_index (execEdit execGen : Nat → Nat → Except String ExecResult)
    (config : BatchConfig) (t : Nat × BatchJobConfig × String) :
    (jobResultOf execEdit execGen config t).index = t.1 + 1 := by
  unfold jobResultOf executeJobModel
  exact attemptLoop_index _ _ _ _ _ _ _ _ _ _ _

/-- The indices of the settled outcomes are the finished jobs' 1-based
indices, in order. -/
theorem settledOf_map_index (execEdit execGen : Nat → Nat → Except String ExecResult)
    (finished : Nat → Bool) (config : BatchConfig)
    (triples : List (Nat × BatchJobConfig × String)) :
    (settledOf execEdit execGen finished config triples).map (fun r => r.index)
      = (triples.filter (fun t => finished t.1)).map (fun t => t.1 + 1) := by
  unfold settledOf
  exact filterMap_ite_map (fun t => finished t.1) _ _ _
    (jobResultOf_index execEdit execGen config) triples

/-- Central finalization property: if the settled outcomes have pairwise
distinct indices, all within `1..N`, then finalization yields exactly one
outcome per job index, the index sequence is exactly `1..N` ascending, every
settled outcome is kept, and every index with no settled outcome gets the
synthetic cancelled outcome. -/
theorem finalizeResults_spec (jobs : List BatchJobConfig) (settled : List BatchJobResult)
    (hnd : (settled.map (fun r => r.index)).Nodup)
    (hsub : ∀ r ∈ settled, 1 ≤ r.index ∧ r.index ≤ jobs.length) :
    ((finalizeResults jobs settled).map (fun r => r.index)
        = List.range' 1 jobs.length) ∧
    (∀ r ∈ settled, r ∈ finalizeResults jobs settled) ∧
    (∀ i, i < jobs.length →
      (settled.map (fun r => r.index)).contains (i + 1) = false →
      cancelledFor jobs i ∈ finalizeResults jobs settled) := by
  classical
  set N := jobs.length with hN
  set idxs := settled.map (fun r => r.index) with hidxs
  set fill := (List.range N).filterMap (fun i =>
    if idxs.contains (i + 1) then none else some (cancelledFor jobs i)) with hfill
  set L := settled ++ fill with hL
  have hfin : finalizeResults jobs settled
      = List.insertionSort (fun a b => a.index ≤ b.index) L := rfl
  have hperm : (List.insertionSort (fun a b => a.index ≤ b.index) L).Perm L :=
    List.perm_insertionSort _ L
  have hmem : ∀ r, r ∈ finalizeResults jobs settled ↔ r ∈ L := by
    intro r; rw [hfin]; exact hperm.mem_iff
  -- the index list of the cancelled fill
  have hfillIdx : fill.map (fun r => r.index)
      = ((List.range N).filter (fun i => !(idxs.contains (i + 1)))).map (fun i => i + 1) := by
    rw [hfill]
    exact filterMap_ite_none_map (fun i => idxs.contains (i + 1)) _ _ _ (fun i => rfl) _
  have hfillNodup : (fill.map (fun r => r.index)).Nodup := by
    rw [hfillIdx]
    exact ((List.nodup_range N).filter _).map (add_left_injective 1)
  have hfillMem : ∀ a, a ∈ fill.map (fun r => r.index)
      ↔ (1 ≤ a ∧ a ≤ N ∧ idxs.contains a = false) := by
    intro a
    rw [hfillIdx]
    constructor
    · intro ha
      obtain ⟨i, hi, rfl⟩ := List.mem_map.mp ha
      obtain ⟨hir, hic⟩ := List.mem_filter.mp hi
      refine ⟨by omega, by have := List.mem_range.mp hir; omega, ?_⟩
      simpa using hic
    · intro ⟨h1, h2, h3⟩
      refine List.mem_map.mpr ⟨a - 1, List.mem_filter.mpr ⟨List.mem_range.mpr (by omega), ?_⟩, by omega⟩
      have e1 : a - 1 + 1 = a := by omega
      rw [e1, h3]
      rfl
  have hLIdx : L.map (fun r => r.index) = idxs ++ fill.map (fun r => r.index) := by
    rw [hL]; exact List.map_append _ _ _
  have hdisj : idxs.Disjoint (fill.map (fun r => r.index)) := by
    rw [List.disjoint_left]
    intro a ha hafill
    have := ((hfillMem a).mp hafill).2.2
    have hmem' : a ∈ idxs := ha
    rw [← List.elem_iff] at hmem'
    simp only [List.contains] at this
    rw [hmem'] at this
    cases this
  have hLNodup : (L.map (fun r => r.index)).Nodup := by
    rw [hLIdx]; exact hnd.append hfillNodup hdisj
  have hRangeMem : ∀ a : Nat, a ∈ List.range' 1 N ↔ (1 ≤ a ∧ a ≤ N) := by
    intro a
    rw [List.mem_range']
    constructor
    · rintro ⟨i, hi, rfl⟩; omega
    · intro ⟨h1, h2⟩; exact ⟨a - 1, by omega, by omega⟩
  have hpermRange : (L.map (fun r => r.index)).Perm (List.range' 1 N) := by
    rw [List.perm_ext_iff_of_nodup hLNodup (List.nodup_range' 1 N)]
    intro a
    rw [hLIdx, List.mem_append, hRangeMem, hfillMem]
    constructor
    · rintro (ha | ha)
      · obtain ⟨r, hr, rfl⟩ := List.mem_map.mp ha
        exact ⟨(hsub r hr).1, (hsub r hr).2⟩
      · exact ⟨ha.1, ha.2.1⟩
    · intro ⟨h1, h2⟩
      by_cases hc : a ∈ idxs
      · exact Or.inl hc
      · refine Or.inr ⟨h1, h2, ?_⟩
        by_contra hne
        have : idxs.contains a = true := by
          cases hcc : idxs.contains a with
          | true => rfl
          | false => exact absurd hcc hne
        have : a ∈ idxs := by simpa using this
        exact hc this
  -- sortedness
  have htotal : ∀ a b : BatchJobResult, a.index ≤ b.index ∨ b.index ≤ a.index :=
    fun a b => Nat.le_total a.index b.index
  haveI hT : IsTotal BatchJobResult (fun a b => a.index ≤ b.index) := ⟨htotal⟩
  haveI hTr : IsTrans BatchJobResult (fun a b => a.index ≤ b.index) :=
    ⟨fun _ _ _ hab hbc => Nat.le_trans hab hbc⟩
  have hsorted : List.Sorted (fun a b : BatchJobResult => a.index ≤ b.index)
      (List.insertionSort (fun a b => a.index ≤ b.index) L) :=
    List.sorted_insertionSort _ L
  have hsortedMap : List.Sorted (· ≤ ·)
      ((List.insertionSort (fun a b => a.index ≤ b.index) L).map (fun r => r.index)) :=
    List.Pairwise.map _ (fun _ _ h => h) hsorted
  have hsortedRange : List.Sorted (· ≤ ·) (List.range' 1 N) :=
    (List.pairwise_lt_range' 1 N).imp le_of_lt
  have hmain : (finalizeResults jobs settled).map (fun r => r.index) = List.range' 1 N := by
    rw [hfin]
    exact List.eq_of_perm_of_sorted ((hperm.map _).trans hpermRange) hsortedMap hsortedRange
  refine ⟨hmain, ?_, ?_⟩
  · intro r hr
    exact (hmem r).mpr (List.mem_append.mpr (Or.inl hr))
  · intro i hi hic
    refine (hmem _).mpr (List.mem_append.mpr (Or.inr ?_))
    rw [hfill]
    refine List.mem_filterMap.mpr ⟨i, List.mem_range.mpr hi, ?_⟩
    rw [hic]
    rfl

/-- With the path pass successful, `executeBatchModel` returns the assembled
report built from the finalized results. -/
theorem executeBatchModel_ok (cwd : String)
    (execEdit execGen : Nat → Nat → Except String ExecResult) (finished : Nat → Bool)
    (config : BatchConfig) (allowAnyPath : Bool)
    (triples : List (Nat × BatchJobConfig × String))
    (hp : executeBatchPaths cwd config allowAnyPath = .ok triples) :
    executeBatchModel cwd execEdit execGen finished config allowAnyPath
      = .ok { total := config.jobs.length
              succeeded := ((finalizeResults config.jobs
                  (settledOf execEdit execGen finished config triples)).filter
                  (fun r => r.status == JobStatus.completed)).length
              failed := ((finalizeResults config.jobs
                  (settledOf execEdit execGen finished config triples)).filter
                  (fun r => r.status == JobStatus.failed)).length
              cancelled := ((finalizeResults config.jobs
                  (settledOf execEdit execGen finished config triples)).filter
                  (fun r => r.status == JobStatus.cancelled)).length
              results := finalizeResults config.jobs
                  (settledOf execEdit execGen finished config triples)
              estimated_cost := (estimateBatchCost config).estimatedCostMin } := by
  unfold executeBatchModel
  rw [hp]

/-- The settled outcomes of a batch have pairwise distinct indices within
`1..N`. -/
theorem settledOf_facts (execEdit execGen : Nat → Nat → Except String ExecResult)
    (finished : Nat → Bool) (config : BatchConfig)
    (triples : List (Nat × BatchJobConfig × String))
    (hfst : triples.map (fun t => t.1) = List.range config.jobs.length) :
    ((settledOf execEdit execGen finished config triples).map (fun r => r.index)).Nodup ∧
    (∀ r ∈ settledOf execEdit execGen finished config triples,
      1 ≤ r.index ∧ r.index ≤ config.jobs.length) := by
  have hmapeq := settledOf_map_index execEdit execGen finished config triples
  have hfsub : ((triples.filter (fun t => finished t.1)).map (fun t => t.1)).Sublist
      (triples.map (fun t => t.1)) := (List.filter_sublist triples).map _
  rw [hfst] at hfsub
  have hnodupf : ((triples.filter (fun t => finished t.1)).map (fun t => t.1)).Nodup :=
    hfsub.nodup (List.nodup_range config.jobs.length)
  have hcomp : (triples.filter (fun t => finished t.1)).map (fun t => t.1 + 1)
      = ((triples.filter (fun t => finished t.1)).map (fun t => t.1)).map (fun n => n + 1) := by
    rw [List.map_map]
    rfl
  constructor
  · rw [hmapeq, hcomp]
    exact hnodupf.map (add_left_injective 1)
  · intro r hr
    have hmem : r.index ∈ (settledOf execEdit execGen finished config triples).map
        (fun r => r.index) := List.mem_map_of_mem _ hr
    rw [hmapeq] at hmem
    obtain ⟨t, ht, hteq⟩ := List.mem_map.mp hmem
    have htt : t.1 ∈ triples.map (fun t => t.1) :=
      List.mem_map_of_mem _ ((List.mem_filter.mp ht).1)
    rw [hfst] at htt
    have := List.mem_range.mp htt
    omega

/-- A job whose promise did not settle leaves no recorded outcome with its
index. -/
theorem settledOf_not_contains (execEdit execGen : Nat → Nat → Except String ExecResult)
    (finished : Nat → Bool) (config : BatchConfig)
    (triples : List (Nat × BatchJobConfig × String))
    (hfst : triples.map (fun t => t.1) = List.range config.jobs.length)
    (t : Nat × BatchJobConfig × String) (ht : t ∈ triples) (hf : finished t.1 = false) :
    ((settledOf execEdit execGen finished config triples).map
        (fun r => r.index)).contains (t.1 + 1) = false := by
  cases hc : ((settledOf execEdit execGen finished config triples).map
      (fun r => r.index)).contains (t.1 + 1) with
  | false => rfl
  | true =>
    exfalso
    have hmem : t.1 + 1 ∈ (settledOf execEdit execGen finished config triples).map
        (fun r => r.index) := by simpa using hc
    rw [settledOf_map_index] at hmem
    obtain ⟨t', ht', hteq⟩ := List.mem_map.mp hmem
    obtain ⟨ht'mem, ht'fin⟩ := List.mem_filter.mp ht'
    have hnodup : (triples.map (fun t => t.1)).Nodup := by
      rw [hfst]; exact List.nodup_range config.jobs.length
    have : t' = t := List.inj_on_of_nodup_map hnodup ht'mem ht (by omega)
    rw [this] at ht'fin
    rw [hf] at ht'fin
    cases ht'fin

/-- C4: for every batch whose output-path pass succeeds, the report returned
by the batch run contains exactly one outcome per original job index — the
index sequence is exactly `1..N` ascending — even when the timeout fired:
every job that settled keeps its recorded outcome, and every job that did
not is assigned the synthetic cancelled outcome with the timeout reason. -/
theorem c4_one_outcome_per_index (cwd : String)
    (execEdit execGen : Nat → Nat → Except String ExecResult) (finished : Nat → Bool)
    (config : BatchConfig) (allowAnyPath : Bool)
    (triples : List (Nat × BatchJobConfig × String)) (report : BatchResult)
    (hp : executeBatchPaths cwd config allowAnyPath = .ok triples)
    (hr : executeBatchModel cwd execEdit execGen finished config allowAnyPath = .ok report) :
    (report.results.map (fun r => r.index) = List.range' 1 config.jobs.length) ∧
    (∀ t ∈ triples, finished t.1 = true →
      jobResultOf execEdit execGen config t ∈ report.results) ∧
    (∀ t ∈ triples, finished t.1 = false →
      cancelledFor config.jobs t.1 ∈ report.results) := by
  have hfst := executeBatchPaths_fst cwd config allowAnyPath triples hp
  have hok := executeBatchModel_ok cwd execEdit execGen finished config allowAnyPath triples hp
  rw [hok] at hr
  injection hr with hrec
  subst hrec
  obtain ⟨hnd, hsub⟩ := settledOf_facts execEdit execGen finished config triples hfst
  obtain ⟨h1, h2, h3⟩ := finalizeResults_spec config.jobs
    (settledOf execEdit execGen finished config triples) hnd hsub
  refine ⟨h1, ?_, ?_⟩
  · intro t ht hf
    apply h2
    unfold settledOf
    exact List.mem_filterMap.mpr ⟨t, ht, by rw [hf]; rfl⟩
  · intro t ht hf
    have hi : t.1 < config.jobs.length := by
      have : t.1 ∈ triples.map (fun t => t.1) := List.mem_map_of_mem _ ht
      rw [hfst] at this
      exact List.mem_range.mp this
    exact h3 t.1 hi
      (settledOf_not_contains execEdit execGen finished config triples hfst t ht hf)

/-- An executor for the C4 witness batch: every call fails. -/
def c4wExec : Nat → Nat → Except String ExecResult := fun _ _ => .error "boom"

/-- The C4 witness batch: two jobs with default paths. -/
def c4wConfig : BatchConfig := { jobs := [{ prompt := "a" }, { prompt := "b" }] }

/-- Only the first job settles before finalization in the C4 witness. -/
def c4wFinished : Nat → Bool := fun i => i == 0

/-- Witness for C4 at a concrete two-job batch where only job 1 settles:
the report's index sequence is exactly `[1, 2]`. -/
theorem c4_one_outcome_per_index_witness :
    ((executeBatchModel "/o" c4wExec c4wExec c4wFinished c4wConfig false).toOption.map
      (fun rep => rep.results.map (fun r => r.index))) = some (List.range' 1 2) := by
  have h := (c4_one_outcome_per_index "/o" c4wExec c4wExec c4wFinished c4wConfig false
    _ _ rfl rfl).1
  exact congrArg some h

/-- If the chosen executor fails on every attempt, the job's recorded
outcome is failed — the error is caught, not propagated. -/
theorem executeJobModel_all_fail (execEdit execGen : Nat → Except String ExecResult)
    (job : BatchJobConfig) (i : Nat) (path : String) (config : BatchConfig)
    (msgs : Nat → String)
    (hE : ∀ a, execEdit a = .error (msgs a)) (hG : ∀ a, execGen a = .error (msgs a)) :
    (executeJobModel execEdit execGen job i path config).1.status = .failed := by
  simp only [executeJobModel]
  have hexec : ∀ a, (if truthy job.video_url then execEdit else execGen) a
      = .error (msgs a) := by
    intro a
    cases truthy job.video_url <;> simp [hE a, hG a]
  exact (attemptLoop_all_fail _ _ _ _ _ _ _ _ _ _ _
    (fun a _ _ => by rw [hexec a]; rfl)).1

/-- C9: the batch run never propagates a job-level execution error: whenever
the configuration pass (output-path resolution) succeeds, the run returns a
report for every executor behaviour — in particular for executors that throw
on every attempt — and a job whose executor always fails is recorded in its
own outcome as failed, at its own index, in that report. -/
theorem c9_no_job_error_propagation (cwd : String)
    (execEdit execGen : Nat → Nat → Except String ExecResult) (finished : Nat → Bool)
    (config : BatchConfig) (allowAnyPath : Bool)
    (hok : (executeBatchPaths cwd config allowAnyPath).isOk = true) :
    ((executeBatchModel cwd execEdit execGen finished config allowAnyPath).isOk = true) ∧
    (∀ (i : Nat) (msgs : Nat → String),
      (∀ a, execEdit i a = .error (msgs a)) →
      (∀ a, execGen i a = .error (msgs a)) →
      finished i = true → i < config.jobs.length →
      ∃ report r,
        executeBatchModel cwd execEdit execGen finished config allowAnyPath = .ok report ∧
        r ∈ report.results ∧ r.index = i + 1 ∧ r.status = .failed) := by
  obtain ⟨triples, hp⟩ : ∃ triples, executeBatchPaths cwd config allowAnyPath = .ok triples := by
    cases hE : executeBatchPaths cwd config allowAnyPath with
    | error e => rw [hE] at hok; cases hok
    | ok triples => exact ⟨triples, rfl⟩
  have hok2 := executeBatchModel_ok cwd execEdit execGen finished config allowAnyPath triples hp
  constructor
  · rw [hok2]; rfl
  · intro i msgs hE hG hfin hiN
    have hfst := executeBatchPaths_fst cwd config allowAnyPath triples hp
    obtain ⟨t, ht, hti⟩ : ∃ t ∈ triples, t.1 = i := by
      have : i ∈ triples.map (fun t => t.1) := by
        rw [hfst]; exact List.mem_range.mpr hiN
      obtain ⟨t, ht, hti⟩ := List.mem_map.mp this
      exact ⟨t, ht, hti⟩
    obtain ⟨hnd, hsub⟩ := settledOf_facts execEdit execGen finished config triples hfst
    obtain ⟨_, h2, _⟩ := finalizeResults_spec config.jobs
      (settledOf execEdit execGen finished config triples) hnd hsub
    refine ⟨_, jobResultOf execEdit execGen config t, hok2, ?_, ?_, ?_⟩
    · apply h2
      unfold settledOf
      refine List.mem_filterMap.mpr ⟨t, ht, ?_⟩
      rw [hti, hfin]
      rfl
    · rw [jobResultOf_index, hti]
    · unfold jobResultOf
      rw [hti]
      exact executeJobModel_all_fail (execEdit i) (execGen i) t.2.1 i t.2.2 config msgs hE hG

/-- An always-failing executor for the C9 witness. -/
def c9wExec : Nat → Nat → Except String ExecResult := fun _ _ => .error "boom"

/-- A single-job configuration for the C9 witness. -/
def c9wConfig : BatchConfig := { jobs := [{ prompt := "a" }] }

/-- Witness for C9 at a one-job batch whose executor always throws: the run
returns a report and the job is recorded as failed at index 1. -/
theorem c9_no_job_error_propagation_witness :
    ((executeBatchModel "/o" c9wExec c9wExec (fun _ => true) c9wConfig false).isOk = true) ∧
    (∃ report r,
      executeBatchModel "/o" c9wExec c9wExec (fun _ => true) c9wConfig false = .ok report ∧
      r ∈ report.results ∧ r.index = 0 + 1 ∧ r.status = .failed) :=
  have h := c9_no_job_error_propagation "/o" c9wExec c9wExec (fun _ => true) c9wConfig false
    (by decide)
  ⟨h.1, h.2 0 (fun _ => "boom") (fun _ => rfl) (fun _ => rfl) rfl (by decide)⟩

/-- C10: the `estimated_cost` of the report returned by the batch run equals
the lower bound `estimatedCostMin` of `estimateBatchCost` over the same
configuration — for every executor behaviour and every set of settled jobs,
so it is computed from the input configuration and not from the actual
outcomes. -/
theorem c10_estimated_cost_is_min (cwd : String)
    (execEdit execGen : Nat → Nat → Except String ExecResult) (finished : Nat → Bool)
    (config : BatchConfig) (allowAnyPath : Bool) (report : BatchResult)
    (hr : executeBatchModel cwd execEdit execGen finished config allowAnyPath = .ok report) :
    report.estimated_cost = (estimateBatchCost config).estimatedCostMin := by
  cases hp : executeBatchPaths cwd config allowAnyPath with
  | error e =>
    unfold executeBatchModel at hr
    rw [hp] at hr
    cases hr
  | ok triples =>
    rw [executeBatchModel_ok cwd execEdit execGen finished config allowAnyPath triples hp] at hr
    injection hr with hrec
    subst hrec
    rfl

/-- Witness for C10 at the concrete two-job batch of the C4 witness. -/
theorem c10_estimated_cost_is_min_witness :
    ((executeBatchModel "/o" c4wExec c4wExec c4wFinished c4wConfig false).toOption.map
      (fun rep => rep.estimated_cost))
      = some ((estimateBatchCost c4wConfig).estimatedCostMin) := by
  have h := c10_estimated_cost_is_min "/o" c4wExec c4wExec c4wFinished c4wConfig false _ rfl
  exact congrArg some h
